import Mathlib

/-!
Shallow embedding of the Regalpaket (".regal" container) subsystem of the
notenregal server (`src/unnamed/part_006`, the Express server).

A container is a zip archive of named entries:
  `manifest.json`, `pages/page-<n>.png`, `annotations/page-<n>.json`,
  `original.pdf`.
We model the archive at the entry level: a list of (path, payload) pairs,
where payloads are raw bytes, a decoded JSON overlay, or a decoded manifest
(`JSON.stringify`/`JSON.parse` round-trip structurally, so the structural
value is the faithful model of the stored JSON text).

The endpoints modelled:
  * `POST /api/regalpaket/convert/:fileName`  — `convertArchive`, `convertOutcome`,
    plus its side effects on `annotations.json` and `shelves.json`
    (`convertSideEffects`);
  * `GET  /api/regalpaket/:f/manifest`        — `getManifest`;
  * `GET  /api/regalpaket/:f/page/:n`         — `getPage`;
  * `GET  /api/regalpaket/:f/annotations/:n`  — `readPageAnnotations`;
  * `PUT  /api/regalpaket/:f/annotations/:n`  — `writePageAnnotations`, and
    `writeFileStates` for the sequence of on-disk states of the target file
    during that write.
-/

/-- A 2D point of a freehand stroke (JSON numbers; coordinates as integers
suffice for the structural round-trip, the server never inspects them). -/
structure Point where
  x : Int
  y : Int
deriving DecidableEq, Repr

/-- Drawing tool of a stroke (fixed enum used by the client). -/
inductive Tool
  | pen
  | highlighter
  | eraser
deriving DecidableEq, Repr

/-- One stroke record of a page overlay. The server treats stroke records as
opaque JSON (it only tests `strokes.length > 0`), so any concrete record type
with decidable equality models them; we use the stroke schema of the client. -/
structure Stroke where
  tool : Tool
  color : String
  lineWidth : Nat
  points : List Point
deriving DecidableEq, Repr

/-- A page's annotation overlay: the ordered list of strokes (paint order). -/
abbrev Overlay := List Stroke

/-- Raw bytes of an entry (page image or embedded original PDF). -/
abbrev Bytes := List Nat

/-- One page reference of the manifest: the loop in the convert handler pushes
`{ page: pageNum, file: 'page-' + pageNum + '.png' }`; we record the page
number appearing in each field (the file name is determined by its number). -/
structure PageRef where
  page : Nat
  file : Nat
deriving DecidableEq, Repr

/-- The manifest record written by the convert handler (`manifest.json`). -/
structure Manifest where
  version : Nat
  name : String
  created : String
  pageCount : Nat
  originalFile : String
  pages : List PageRef
deriving DecidableEq, Repr

/-- Entry names inside a container. The server addresses entries by the exact
path strings `manifest.json`, `pages/page-<n>.png`, `annotations/page-<n>.json`
and `original.pdf`; the constructors are those four shapes with the embedded
page number made explicit. -/
inductive EntryPath
  | manifestPath
  | pagePath (n : Nat)
  | annPath (n : Nat)
  | originalPath
deriving DecidableEq, Repr

/-- Payload of an entry: raw bytes, a JSON-encoded overlay, or the
JSON-encoded manifest. -/
inductive EntryData
  | bytes (b : Bytes)
  | json (o : Overlay)
  | manifestData (m : Manifest)
deriving DecidableEq, Repr

/-- A container archive: its entries in write order. Lookups are by name,
mirroring `directory.files.find(f => f.path === ...)` in the server. -/
abbrev Archive := List (EntryPath × EntryData)

/-- Entry lookup by exact path, as `directory.files.find(f => f.path === p)`. -/
def Archive.find (a : Archive) (p : EntryPath) : Option EntryData :=
  (List.find? (fun e => decide (e.1 = p)) a).map Prod.snd

theorem archive_find_nil (p : EntryPath) : Archive.find [] p = none := rfl

theorem archive_find_cons (e : EntryPath × EntryData) (a : Archive) (p : EntryPath) :
    Archive.find (e :: a) p = if e.1 = p then some e.2 else Archive.find a p := by
  by_cases h : e.1 = p <;> simp [Archive.find, List.find?, h]

theorem archive_find_append (a b : Archive) (p : EntryPath) :
    Archive.find (a ++ b) p = (Archive.find a p).orElse (fun _ => Archive.find b p) := by
  induction a with
  | nil => simp [archive_find_nil]
  | cons e a ih =>
      by_cases h : e.1 = p <;>
        simp [archive_find_cons, h, ih, Option.orElse]

theorem archive_find_append_left (a b : Archive) (p : EntryPath) (d : EntryData)
    (h : Archive.find a p = some d) :
    Archive.find (a ++ b) p = some d := by
  rw [archive_find_append, h]; rfl

theorem archive_find_append_right (a b : Archive) (p : EntryPath)
    (h : Archive.find a p = none) :
    Archive.find (a ++ b) p = Archive.find b p := by
  rw [archive_find_append, h]; rfl

/-- The page-image entries written by the convert loop: `pageNum` starts at 0
and is incremented before each write, so with first page number `n` the pages
`bs` land at `pages/page-n.png`, `pages/page-(n+1).png`, ….  In the handler
the loop is entered with `n = 1`. -/
def pageEntries : Nat → List Bytes → Archive
  | _, [] => []
  | n, b :: bs => (EntryPath.pagePath n, EntryData.bytes b) :: pageEntries (n + 1) bs

/-- The page references accumulated in `pageData` by the same loop. -/
def pageRefs : Nat → Nat → List PageRef
  | _, 0 => []
  | n, k + 1 => { page := n, file := n } :: pageRefs (n + 1) k

/-- The annotation entries written by the convert handler: one
`annotations/page-<p>.json` per entry of `annotations.json`'s mapping for the
source PDF (`Object.entries(pdfAnnotations)` — every stored page, keys
distinct because they are object keys). -/
def annEntriesOf (prior : List (Nat × Overlay)) : Archive :=
  prior.map (fun e => (EntryPath.annPath e.1, EntryData.json e.2))

/-- The manifest built by the convert handler. -/
def convertManifest (baseName created : String) (pageCount : Nat) : Manifest :=
  { version := 1
    name := baseName
    created := created
    pageCount := pageCount
    originalFile := "original.pdf"
    pages := pageRefs 1 pageCount }

/-- The archive assembled by `POST /api/regalpaket/convert/:fileName`: page
images in render order numbered from 1, the prior per-page overlays of the
source PDF, the original PDF bytes verbatim, and the manifest.  Entries are
listed in the order the handler writes them into the temp directory. -/
def convertArchive (original : Bytes) (pages : List Bytes)
    (prior : List (Nat × Overlay)) (baseName created : String) : Archive :=
  pageEntries 1 pages
    ++ annEntriesOf prior
    ++ [(EntryPath.originalPath, EntryData.bytes original),
        (EntryPath.manifestPath,
          EntryData.manifestData (convertManifest baseName created pages.length))]

/-- Outcome of the convert endpoint.  `emptyDocumentError` is the failure mode
the specification prescribes for a zero-page render; the handler has no such
check, so the model never produces it — it exists so the claim can be stated. -/
inductive ConvertOutcome
  | success (archive : Archive) (pageCount : Nat)
  | emptyDocumentError
deriving DecidableEq, Repr

/-- `POST /api/regalpaket/convert/:fileName` on an existing PDF: the handler
renders the pages, always builds and writes the `.regal` archive at the target
path (`fs.createWriteStream(regalPath)` runs unconditionally, also when the
render produced zero pages), and responds success with the page count. -/
def convertOutcome (original : Bytes) (pages : List Bytes)
    (prior : List (Nat × Overlay)) (baseName created : String) : ConvertOutcome :=
  ConvertOutcome.success (convertArchive original pages prior baseName created)
    pages.length

/-- Result of `GET /api/regalpaket/:fileName/manifest` on an existing
container. -/
inductive ManifestResult
  | ok (m : Manifest)
  /-- no `manifest.json` entry: HTTP 400 "Invalid Regalpaket". -/
  | noManifest
  /-- `JSON.parse` threw: HTTP 500. -/
  | malformed
deriving DecidableEq, Repr

/-- `GET /api/regalpaket/:fileName/manifest`: look up `manifest.json`, parse
it, and serve it as-is.  The handler checks neither the manifest's `version`
field nor any structural invariant against the archive's entries. -/
def getManifest (a : Archive) : ManifestResult :=
  match a.find EntryPath.manifestPath with
  | none => ManifestResult.noManifest
  | some (EntryData.manifestData m) => ManifestResult.ok m
  | some _ => ManifestResult.malformed

/-- `GET /api/regalpaket/:fileName/page/:pageNum`: look up
`pages/page-<n>.png` and send its bytes; absent entry is HTTP 404 (`none`). -/
def getPage (a : Archive) (n : Nat) : Option Bytes :=
  match a.find (EntryPath.pagePath n) with
  | some (EntryData.bytes b) => some b
  | _ => none

/-- Result of `GET /api/regalpaket/:fileName/annotations/:pageNum` on an
existing container. -/
inductive AnnResult
  | ok (o : Overlay)
  /-- `JSON.parse` threw on the entry payload: HTTP 500. -/
  | err
deriving DecidableEq, Repr

/-- `GET /api/regalpaket/:fileName/annotations/:pageNum`: look up
`annotations/page-<n>.json`; a missing entry is answered with `[]`, a present
entry with its parsed stroke list. -/
def readPageAnnotations (a : Archive) (n : Nat) : AnnResult :=
  match a.find (EntryPath.annPath n) with
  | none => AnnResult.ok []
  | some (EntryData.json o) => AnnResult.ok o
  | some _ => AnnResult.err

/-- Drop the `annotations/page-<p>.json` entry from an entry list, keeping all
other entries in order (the effect of `fs.unlinkSync` on the extracted temp
directory, or of overwriting that file before re-zipping). -/
def removeAnnEntry (p : Nat) : Archive → Archive
  | [] => []
  | e :: rest =>
      if e.1 = EntryPath.annPath p then removeAnnEntry p rest
      else e :: removeAnnEntry p rest

/-- `PUT /api/regalpaket/:fileName/annotations/:pageNum`: the handler extracts
every entry of the existing archive into a temp directory, then — if the
request body's `strokes` is present and non-empty — writes
`annotations/page-<p>.json` with the new strokes (overwriting any extracted
one), otherwise unlinks that file if it exists; finally it re-zips the
directory over the target path.  The resulting entry set is the old one with
the page-`p` annotation entry replaced, added, or removed. -/
def writePageAnnotations (a : Archive) (p : Nat) (strokes : Option Overlay) :
    Archive :=
  match strokes with
  | some s =>
      if s.length > 0 then
        removeAnnEntry p a ++ [(EntryPath.annPath p, EntryData.json s)]
      else removeAnnEntry p a
  | none => removeAnnEntry p a

/-- On-disk state of the container file at its target path. -/
inductive FileState
  | absent
  /-- the write stream over the target has been opened (the file is truncated)
  but the new archive has not been fully written and closed yet. -/
  | truncated
  | stored (a : Archive)
deriving DecidableEq, Repr

/-- The successive states of the target file during
`PUT /api/regalpaket/:fileName/annotations/:pageNum`, in order: the original
archive while the handler extracts entries and edits the temp directory; then
the truncated/partial target from the moment `fs.createWriteStream(regalPath)`
opens the write stream directly on the target path until the zip stream
closes; then the rebuilt archive.  There is no adjacent temporary file and no
rename step in the handler. -/
def writeFileStates (a : Archive) (p : Nat) (strokes : Option Overlay) :
    List FileState :=
  [FileState.stored a, FileState.truncated,
   FileState.stored (writePageAnnotations a p strokes)]

/-- One shelf of `shelves.json`. -/
structure LibShelf where
  id : String
  name : String
  files : List String
deriving DecidableEq, Repr

/-- The server-side JSON stores touched by the convert handler's side effects:
`annotations.json` (fileName → pageNumber → strokes; JS objects, modelled as
association lists looked up by first match) and `shelves.json`. -/
structure ServerState where
  shelves : List LibShelf
  annStore : List (String × List (Nat × Overlay))
deriving DecidableEq, Repr

/-- Lookup in an association list by string key, as a JS object access. -/
def lookupStr {α : Type} (l : List (String × α)) (k : String) : Option α :=
  (List.find? (fun e => decide (e.1 = k)) l).map Prod.snd

/-- The shelf-files rewrite in the convert handler:
`idx = shelf.files.indexOf(pdfName); if (idx !== -1) shelf.files[idx] = regalName` —
the first occurrence of the PDF name, when present, is overwritten with the
`.regal` name; everything else is untouched. -/
def replaceFirst (oldName newName : String) : List String → List String
  | [] => []
  | f :: fs =>
      if f = oldName then newName :: fs
      else f :: replaceFirst oldName newName fs

/-- `delete obj[k]` on a JS object modelled as an association list: every
binding of key `k` is removed, the rest kept in order. -/
def removeKey {α : Type} (k : String) : List (String × α) → List (String × α)
  | [] => []
  | e :: rest => if e.1 = k then removeKey k rest else e :: removeKey k rest

/-- The convert handler's side effects after a successful conversion of
`pdfName` into `regalName`: `delete annotationsData.annotations[pdfName]`
followed by the shelf-files rewrite over every shelf. -/
def convertSideEffects (s : ServerState) (pdfName regalName : String) :
    ServerState :=
  { shelves := s.shelves.map
      (fun sh => { sh with files := replaceFirst pdfName regalName sh.files })
    annStore := removeKey pdfName s.annStore }

/-- Two concurrent `PUT …/annotations/:pageNum` requests against the same
container path: writer 1 targets page `p1` with strokes `s1`, writer 2 page
`p2` with `s2`, over initial archive `a0`. -/
structure TwoWriters where
  a0 : Archive
  p1 : Nat
  p2 : Nat
  s1 : Overlay
  s2 : Overlay

/-- State while the two writers run: the container file's current entry set
and each writer's extracted snapshot (the temp directory it rebuilt), if that
writer has already read the archive. -/
structure WState where
  file : Archive
  snap1 : Option Archive
  snap2 : Option Archive
deriving DecidableEq, Repr

/-- Atomic phases of each writer.  `read i` is `unzipper.Open.file` plus the
extraction into the writer's own `.temp-<Date.now()>` directory (snapshotting
the file's current entries); `commit i` is the edit of the annotation file
plus re-zipping the snapshot over the target path.  The handler takes no lock,
so any interleaving of these phases can occur. -/
inductive WPhase
  | read1
  | read2
  | commit1
  | commit2
deriving DecidableEq, Repr

/-- Effect of one phase. A commit before the corresponding read cannot happen
(the handler always reads first); it is modelled as a no-op. -/
def wphaseStep (w : TwoWriters) (st : WState) : WPhase → WState
  | WPhase.read1 => { st with snap1 := some st.file }
  | WPhase.read2 => { st with snap2 := some st.file }
  | WPhase.commit1 =>
      match st.snap1 with
      | some snap =>
          { st with file := writePageAnnotations snap w.p1 (some w.s1) }
      | none => st
  | WPhase.commit2 =>
      match st.snap2 with
      | some snap =>
          { st with file := writePageAnnotations snap w.p2 (some w.s2) }
      | none => st

/-- Run a schedule (an interleaving of the two writers' phases) from the
initial state. -/
def runSchedule (w : TwoWriters) (sched : List WPhase) : WState :=
  sched.foldl (wphaseStep w) { file := w.a0, snap1 := none, snap2 := none }

/-! ### Lookup lemmas for the pieces of a converted archive -/

theorem pageEntries_find_inrange (bs : List Bytes) :
    ∀ (n i : Nat) (h : i < bs.length),
      Archive.find (pageEntries n bs) (EntryPath.pagePath (n + i))
        = some (EntryData.bytes (bs.get ⟨i, h⟩)) := by
  induction bs with
  | nil => intro n i h; exact absurd h (Nat.not_lt_zero i)
  | cons b bs ih =>
      intro n i h
      cases i with
      | zero => simp [pageEntries, archive_find_cons]
      | succ j =>
          have hne : EntryPath.pagePath n ≠ EntryPath.pagePath (n + (j + 1)) := by
            intro hc
            have : n = n + (j + 1) := by
              injection hc
            omega
          have hj : j < bs.length := Nat.lt_of_succ_lt_succ h
          have := ih (n + 1) j hj
          simpa [pageEntries, archive_find_cons, hne, Nat.add_assoc,
            Nat.add_comm 1 j] using this

theorem pageEntries_find_nonpage (bs : List Bytes) (q : EntryPath)
    (hq : ∀ k, q ≠ EntryPath.pagePath k) :
    ∀ n, Archive.find (pageEntries n bs) q = none := by
  induction bs with
  | nil => intro n; rfl
  | cons b bs ih =>
      intro n
      have hne : EntryPath.pagePath n ≠ q := fun hc => hq n hc.symm
      simp [pageEntries, archive_find_cons, hne, ih]

theorem annEntriesOf_find_mem (prior : List (Nat × Overlay)) (p : Nat) (o : Overlay)
    (hnd : (prior.map Prod.fst).Nodup) (hmem : (p, o) ∈ prior) :
    Archive.find (annEntriesOf prior) (EntryPath.annPath p)
      = some (EntryData.json o) := by
  induction prior with
  | nil => cases hmem
  | cons e rest ih =>
      rcases List.mem_cons.mp hmem with he | hrest
      · subst he
        simp [annEntriesOf, archive_find_cons]
      · have hpe : e.1 ≠ p := by
          intro hc
          have : e.1 ∈ rest.map Prod.fst := by
            subst hc
            exact List.mem_map.mpr ⟨(e.1, o), hrest, rfl⟩
          exact (List.nodup_cons.mp (by simpa using hnd)).1 this
        have hne : EntryPath.annPath e.1 ≠ EntryPath.annPath p := by
          intro hc; exact hpe (by injection hc)
        have hnd' : (rest.map Prod.fst).Nodup :=
          (List.nodup_cons.mp (by simpa using hnd)).2
        simp [annEntriesOf, archive_find_cons, hne] at ih ⊢
        exact ih hnd' hrest

theorem annEntriesOf_find_notmem (p : Nat) :
    ∀ prior : List (Nat × Overlay), p ∉ prior.map Prod.fst →
      Archive.find (annEntriesOf prior) (EntryPath.annPath p) = none := by
  intro prior
  induction prior with
  | nil => intro _; rfl
  | cons e rest ih =>
      intro hp
      have hpe : e.1 ≠ p := by
        intro hc
        exact hp (by simp [hc.symm])
      have hne : EntryPath.annPath e.1 ≠ EntryPath.annPath p := by
        intro hc; exact hpe (by injection hc)
      have hp' : p ∉ rest.map Prod.fst := fun hc => hp (by simp [hc])
      have step : annEntriesOf (e :: rest)
          = (EntryPath.annPath e.1, EntryData.json e.2) :: annEntriesOf rest := rfl
      rw [step, archive_find_cons, if_neg hne]
      exact ih hp'

theorem annEntriesOf_find_nonann (q : EntryPath)
    (hq : ∀ k, q ≠ EntryPath.annPath k) :
    ∀ prior : List (Nat × Overlay), Archive.find (annEntriesOf prior) q = none := by
  intro prior
  induction prior with
  | nil => rfl
  | cons e rest ih =>
      have hne : EntryPath.annPath e.1 ≠ q := fun hc => hq e.1 hc.symm
      have step : annEntriesOf (e :: rest)
          = (EntryPath.annPath e.1, EntryData.json e.2) :: annEntriesOf rest := rfl
      rw [step, archive_find_cons, if_neg hne]
      exact ih

/-- In a converted archive, the manifest entry holds exactly the manifest the
handler built. -/
theorem convertArchive_manifest (original : Bytes) (pages : List Bytes)
    (prior : List (Nat × Overlay)) (baseName created : String) :
    getManifest (convertArchive original pages prior baseName created)
      = ManifestResult.ok (convertManifest baseName created pages.length) := by
  have h1 : Archive.find (pageEntries 1 pages) EntryPath.manifestPath = none :=
    pageEntries_find_nonpage pages EntryPath.manifestPath (fun k h => by cases h) 1
  have h2 : Archive.find (annEntriesOf prior) EntryPath.manifestPath = none :=
    annEntriesOf_find_nonann EntryPath.manifestPath (fun k h => by cases h) prior
  simp [getManifest, convertArchive, archive_find_append, h1, h2,
    archive_find_cons, Option.orElse]

/-- In a converted archive, page `i+1` (for `i < N`) holds exactly the `i`-th
rendered image, byte for byte. -/
theorem convertArchive_page (original : Bytes) (pages : List Bytes)
    (prior : List (Nat × Overlay)) (baseName created : String)
    (i : Nat) (h : i < pages.length) :
    getPage (convertArchive original pages prior baseName created) (1 + i)
      = some (pages.get ⟨i, h⟩) := by
  have h1 := pageEntries_find_inrange pages 1 i h
  simp [getPage, convertArchive, archive_find_append, h1, Option.orElse]

/-- In a converted archive, a page that had a prior overlay reads back exactly
that overlay. -/
theorem convertArchive_ann_mem (original : Bytes) (pages : List Bytes)
    (prior : List (Nat × Overlay)) (baseName created : String)
    (p : Nat) (o : Overlay) (hnd : (prior.map Prod.fst).Nodup)
    (hmem : (p, o) ∈ prior) :
    readPageAnnotations (convertArchive original pages prior baseName created) p
      = AnnResult.ok o := by
  have h1 : Archive.find (pageEntries 1 pages) (EntryPath.annPath p) = none :=
    pageEntries_find_nonpage pages (EntryPath.annPath p) (fun k h => by cases h) 1
  have h2 := annEntriesOf_find_mem prior p o hnd hmem
  simp [readPageAnnotations, convertArchive, archive_find_append, h1, h2,
    Option.orElse]

/-- In a converted archive, a page with no prior overlay reads back the
canonical empty overlay. -/
theorem convertArchive_ann_notmem (original : Bytes) (pages : List Bytes)
    (prior : List (Nat × Overlay)) (baseName created : String)
    (p : Nat) (hp : p ∉ prior.map Prod.fst) :
    readPageAnnotations (convertArchive original pages prior baseName created) p
      = AnnResult.ok [] := by
  have h1 : Archive.find (pageEntries 1 pages) (EntryPath.annPath p) = none :=
    pageEntries_find_nonpage pages (EntryPath.annPath p) (fun k h => by cases h) 1
  have h2 := annEntriesOf_find_notmem p prior hp
  simp [readPageAnnotations, convertArchive, archive_find_append, h1, h2,
    archive_find_cons, archive_find_nil, Option.orElse]

/-! ### Lookup lemmas for `writePageAnnotations` -/

theorem removeAnnEntry_find_self (p : Nat) :
    ∀ a : Archive, Archive.find (removeAnnEntry p a) (EntryPath.annPath p) = none := by
  intro a
  induction a with
  | nil => rfl
  | cons e rest ih =>
      by_cases h : e.1 = EntryPath.annPath p
      · rw [removeAnnEntry, if_pos h]; exact ih
      · rw [removeAnnEntry, if_neg h, archive_find_cons, if_neg h]; exact ih

theorem removeAnnEntry_find_other (p : Nat) (q : EntryPath)
    (hq : q ≠ EntryPath.annPath p) :
    ∀ a : Archive, Archive.find (removeAnnEntry p a) q = Archive.find a q := by
  intro a
  induction a with
  | nil => rfl
  | cons e rest ih =>
      by_cases h : e.1 = EntryPath.annPath p
      · have hne : e.1 ≠ q := by
          rw [h]; exact fun hc => hq hc.symm
        rw [removeAnnEntry, if_pos h, archive_find_cons, if_neg hne]
        exact ih
      · rw [removeAnnEntry, if_neg h, archive_find_cons, archive_find_cons]
        by_cases h2 : e.1 = q
        · rw [if_pos h2, if_pos h2]
        · rw [if_neg h2, if_neg h2]; exact ih

/-- After writing a non-empty overlay to page `p`, the archive's entry for
page `p` holds exactly that overlay. -/
theorem writePageAnnotations_find_self (a : Archive) (p : Nat) (s : Overlay)
    (hs : s ≠ []) :
    Archive.find (writePageAnnotations a p (some s)) (EntryPath.annPath p)
      = some (EntryData.json s) := by
  have hlen : s.length > 0 := List.length_pos.mpr hs
  rw [writePageAnnotations]
  simp only [hlen, if_pos]
  rw [archive_find_append_right _ _ _ (removeAnnEntry_find_self p a),
    archive_find_cons]
  simp

/-- After writing an empty overlay to page `p`, no entry for page `p`
remains. -/
theorem writePageAnnotations_find_self_empty (a : Archive) (p : Nat) :
    Archive.find (writePageAnnotations a p (some [])) (EntryPath.annPath p)
      = none := by
  rw [writePageAnnotations]
  simpa using removeAnnEntry_find_self p a

/-- Writing with no strokes field also leaves no entry for page `p`. -/
theorem writePageAnnotations_find_self_none (a : Archive) (p : Nat) :
    Archive.find (writePageAnnotations a p none) (EntryPath.annPath p)
      = none := by
  rw [writePageAnnotations]
  exact removeAnnEntry_find_self p a

/-- A write to page `p` leaves every other entry untouched. -/
theorem writePageAnnotations_find_other (a : Archive) (p : Nat)
    (strokes : Option Overlay) (q : EntryPath) (hq : q ≠ EntryPath.annPath p) :
    Archive.find (writePageAnnotations a p strokes) q = Archive.find a q := by
  cases strokes with
  | none =>
      rw [writePageAnnotations]
      exact removeAnnEntry_find_other p q hq a
  | some s =>
      by_cases hlen : s.length > 0
      · rw [writePageAnnotations]
        simp only [hlen, if_pos]
        rw [archive_find_append]
        rw [removeAnnEntry_find_other p q hq a]
        cases h : Archive.find a q with
        | none =>
            simp only [Option.orElse]
            rw [archive_find_cons, if_neg (fun hc => hq hc.symm)]
            rfl
        | some d => rfl
      · rw [writePageAnnotations]
        simp only [hlen, if_neg, if_false]
        exact removeAnnEntry_find_other p q hq a

/-! ### Helper lemmas for the convert side effects -/

theorem lookupStr_removeKey_self {α : Type} (k : String) :
    ∀ l : List (String × α), lookupStr (removeKey k l) k = none := by
  intro l
  induction l with
  | nil => rfl
  | cons e rest ih =>
      by_cases h : e.1 = k
      · rw [removeKey, if_pos h]; exact ih
      · rw [removeKey, if_neg h]
        rw [lookupStr] at ih ⊢
        rw [List.find?]
        simp only [h, decide_eq_false, Bool.false_eq_true]
        exact ih

theorem replaceFirst_mem (oldName newName : String) :
    ∀ files : List String, oldName ∈ files →
      newName ∈ replaceFirst oldName newName files := by
  intro files
  induction files with
  | nil => intro h; cases h
  | cons f fs ih =>
      intro h
      by_cases hf : f = oldName
      · rw [replaceFirst, if_pos hf]
        exact List.mem_cons_self newName fs
      · rw [replaceFirst, if_neg hf]
        rcases List.mem_cons.mp h with he | hfs
        · exact absurd he.symm hf
        · exact List.mem_cons_of_mem f (ih hfs)

theorem replaceFirst_notmem (oldName newName : String) :
    ∀ files : List String, oldName ∉ files →
      replaceFirst oldName newName files = files := by
  intro files
  induction files with
  | nil => intro _; rfl
  | cons f fs ih =>
      intro h
      have hf : f ≠ oldName := fun hc => h (by simp [hc])
      have hfs : oldName ∉ fs := fun hc => h (List.mem_cons_of_mem f hc)
      rw [replaceFirst, if_neg hf, ih hfs]

/-! ### Concrete demonstration values used by witnesses and counterexamples -/

/-- A four-point pen stroke. -/
def demoStroke : Stroke :=
  { tool := Tool.pen
    color := "#1a1a1a"
    lineWidth := 2
    points := [{ x := 0, y := 0 }, { x := 1, y := 1 },
               { x := 2, y := 1 }, { x := 3, y := 2 }] }

/-- A two-point highlighter stroke. -/
def demoStroke2 : Stroke :=
  { tool := Tool.highlighter
    color := "#ffee00"
    lineWidth := 8
    points := [{ x := 5, y := 5 }, { x := 9, y := 5 }] }

/-- Three rendered page images (arbitrary distinct byte lists). -/
def demoPages : List Bytes := [[137, 80, 78, 71], [1, 2, 3], [42]]

/-- Bytes of a source PDF. -/
def demoOriginal : Bytes := [37, 80, 68, 70]

/-- The container produced by converting the demo PDF: three pages, a prior
one-stroke overlay on page 2. -/
def demoArchive : Archive :=
  convertArchive demoOriginal demoPages [(2, [demoStroke])] "demo" "2026-01-01"

/-! ### Claim theorems -/

/-- C3: writing an empty overlay (empty or absent `strokes` list) to any page
of any existing container deletes the annotation entry for that page: a
subsequent read of that page's annotations yields the empty overlay `[]`, and
no annotation entry for the page is present among the container's entries. -/
theorem C3_empty_write_deletes (a : Archive) (p : Nat) :
    (readPageAnnotations (writePageAnnotations a p (some [])) p = AnnResult.ok []
      ∧ Archive.find (writePageAnnotations a p (some [])) (EntryPath.annPath p) = none)
    ∧ (readPageAnnotations (writePageAnnotations a p none) p = AnnResult.ok []
      ∧ Archive.find (writePageAnnotations a p none) (EntryPath.annPath p) = none) := by
  have h1 := writePageAnnotations_find_self_empty a p
  have h2 := writePageAnnotations_find_self_none a p
  refine ⟨⟨?_, h1⟩, ⟨?_, h2⟩⟩
  · rw [readPageAnnotations, h1]
  · rw [readPageAnnotations, h2]

/-- C4: for every existing container and every page number whose annotation
entry is absent from the archive, reading that page's annotations returns the
canonical empty overlay `[]` and never an error. -/
theorem C4_missing_entry_reads_empty (a : Archive) (p : Nat)
    (h : Archive.find a (EntryPath.annPath p) = none) :
    readPageAnnotations a p = AnnResult.ok [] := by
  rw [readPageAnnotations, h]

/-- Witness for C4 at a concrete container: the 3-page demo container has no
annotation entry for page 3, and reading page 3's annotations yields `[]`. -/
theorem C4_missing_entry_reads_empty_witness :
    Archive.find demoArchive (EntryPath.annPath 3) = none
      ∧ readPageAnnotations demoArchive 3 = AnnResult.ok [] :=
  ⟨by decide, C4_missing_entry_reads_empty demoArchive 3 (by decide)⟩

/-- A manifest carrying format version 2 instead of the single supported value
1 written by the converter. -/
def badVersionManifest : Manifest :=
  { version := 2
    name := "demo"
    created := "2026-01-01"
    pageCount := 1
    originalFile := "original.pdf"
    pages := [{ page := 1, file := 1 }] }

/-- A well-shaped one-page container whose stored manifest carries the
unsupported format version 2. -/
def badVersionArchive : Archive :=
  [(EntryPath.manifestPath, EntryData.manifestData badVersionManifest),
   (EntryPath.pagePath 1, EntryData.bytes [0]),
   (EntryPath.originalPath, EntryData.bytes demoOriginal)]

/-- C5 counterexample: a container whose manifest carries format version 2 —
different from the single supported value 1 — is opened without any
`UnsupportedVersion` failure: the manifest endpoint parses it and serves it to
the caller as-is. -/
theorem C5_counterexample :
    badVersionManifest.version ≠ 1
      ∧ getManifest badVersionArchive = ManifestResult.ok badVersionManifest := by
  decide

/-- C5 amended: the manifest endpoint performs no format-version check at all;
for every stored manifest, whatever its `version` field, opening the container
parses the manifest and serves it to the caller. -/
theorem C5_no_version_check (m : Manifest) (rest : Archive) :
    getManifest ((EntryPath.manifestPath, EntryData.manifestData m) :: rest)
      = ManifestResult.ok m := by
  rw [getManifest, archive_find_cons]
  simp

/-- The manifest of a five-page container (as the converter would build it). -/
def fivePageManifest : Manifest := convertManifest "demo" "2026-01-01" 5

/-- A container whose manifest claims `pageCount = 5` but whose archive holds
only four page-image entries: the one for page `missing + 1` is absent. -/
def missingPageArchive (missing : Fin 5) : Archive :=
  (EntryPath.manifestPath, EntryData.manifestData fivePageManifest)
    :: ((List.range 5).filterMap (fun i =>
          if i = missing.val then none
          else some (EntryPath.pagePath (i + 1), EntryData.bytes [i])))
    ++ [(EntryPath.originalPath, EntryData.bytes demoOriginal)]

/-- C6 counterexample: a container whose manifest claims `pageCount = 5`
backed by only four page entries (page 5 missing) is opened without any
`StructuralError`: the manifest endpoint serves the manifest as-is. -/
theorem C6_counterexample :
    getManifest (missingPageArchive ⟨4, by decide⟩)
        = ManifestResult.ok fivePageManifest
      ∧ Archive.find (missingPageArchive ⟨4, by decide⟩) (EntryPath.pagePath 5) = none
      ∧ fivePageManifest.pageCount = 5 := by
  decide

/-- C6 amended: opening the manifest performs no structural re-check against
the live entry list: for every value of the missing page index from 1 to 5, a
container whose manifest claims `pageCount = 5` backed by only the other four
page entries is served successfully instead of failing. -/
theorem C6_no_structural_check :
    ∀ missing : Fin 5,
      getManifest (missingPageArchive missing) = ManifestResult.ok fivePageManifest
        ∧ Archive.find (missingPageArchive missing)
            (EntryPath.pagePath (missing.val + 1)) = none
        ∧ fivePageManifest.pageCount = 5 := by
  decide

/-- C7 counterexample: converting a source document whose render yields zero
page images does not fail with `EmptyDocument` and does not leave the target
absent — the handler responds success and a container is created at the target
path, holding a manifest with `pageCount = 0`. -/
theorem C7_counterexample :
    convertOutcome demoOriginal [] [] "demo" "2026-01-01"
        = ConvertOutcome.success
            (convertArchive demoOriginal [] [] "demo" "2026-01-01") 0
      ∧ convertOutcome demoOriginal [] [] "demo" "2026-01-01"
          ≠ ConvertOutcome.emptyDocumentError
      ∧ getManifest (convertArchive demoOriginal [] [] "demo" "2026-01-01")
          = ManifestResult.ok (convertManifest "demo" "2026-01-01" 0) := by
  decide

/-- C7 amended: the convert handler has no empty-document check: for every
source document whose render yields zero pages, conversion succeeds and a
container is created at the target path whose manifest records
`pageCount = 0` (the target file is written unconditionally, not guarded by a
rename of a validated temp file). -/
theorem C7_zero_pages_still_creates (original : Bytes)
    (prior : List (Nat × Overlay)) (baseName created : String) :
    convertOutcome original [] prior baseName created
        = ConvertOutcome.success (convertArchive original [] prior baseName created) 0
      ∧ getManifest (convertArchive original [] prior baseName created)
          = ManifestResult.ok (convertManifest baseName created 0) := by
  exact ⟨rfl, convertArchive_manifest original [] prior baseName created⟩

/-- C8 counterexample: on the 3-page demo container, a `PUT` of a non-empty
overlay for page 99 — far outside the manifest's `1..3` range — is not
rejected: the annotation entry for page 99 is written into the rebuilt
container, violating the invariant that every annotation entry names a page
inside `1..pageCount`. -/
theorem C8_counterexample :
    getManifest demoArchive
        = ManifestResult.ok (convertManifest "demo" "2026-01-01" 3)
      ∧ Archive.find (writePageAnnotations demoArchive 99 (some [demoStroke2]))
          (EntryPath.annPath 99) = some (EntryData.json [demoStroke2])
      ∧ ¬ 99 ≤ (convertManifest "demo" "2026-01-01" 3).pageCount := by
  decide

/-- C8 amended: the annotation-write handler performs no page-range check
against the manifest: for every container, every page number `p` whatsoever,
and every non-empty overlay, the write stores the annotation entry for `p` and
a subsequent read returns it — also when `p` lies outside `1..pageCount`. -/
theorem C8_no_range_check (a : Archive) (p : Nat) (s : Overlay) (hs : s ≠ []) :
    Archive.find (writePageAnnotations a p (some s)) (EntryPath.annPath p)
        = some (EntryData.json s)
      ∧ readPageAnnotations (writePageAnnotations a p (some s)) p
        = AnnResult.ok s := by
  have h := writePageAnnotations_find_self a p s hs
  exact ⟨h, by rw [readPageAnnotations, h]⟩

/-- Witness for C8 amended at a concrete out-of-range input: writing one
stroke to page 99 of the 3-page demo container stores and returns it. -/
theorem C8_no_range_check_witness :
    Archive.find (writePageAnnotations demoArchive 99 (some [demoStroke2]))
        (EntryPath.annPath 99) = some (EntryData.json [demoStroke2])
      ∧ readPageAnnotations (writePageAnnotations demoArchive 99 (some [demoStroke2])) 99
        = AnnResult.ok [demoStroke2] :=
  C8_no_range_check demoArchive 99 [demoStroke2] (by decide)

/-- C1 counterexample: on the demo container, it is not the case that every
on-disk state of the target file before the write completes equals the
original container: the handler opens its write stream directly on the target
path, so between stream-open and completion the target is truncated/partial,
not byte-for-byte the original. -/
theorem C1_counterexample :
    ¬ ∀ st ∈ (writeFileStates demoArchive 1 (some [demoStroke2])).dropLast,
        st = FileState.stored demoArchive := by
  decide

/-- C1 amended: an annotation write leaves the target unchanged only while the
handler is still extracting and editing its temp directory (the first state);
from the moment `fs.createWriteStream(regalPath)` opens the target for
writing, the target is truncated — a state that equals no complete container,
in particular not the original — and only at stream completion does it hold
the rebuilt archive.  There is no temporary-file-plus-atomic-rename commit. -/
theorem C1_only_prewrite_unchanged (a : Archive) (p : Nat)
    (strokes : Option Overlay) :
    (writeFileStates a p strokes).head? = some (FileState.stored a)
      ∧ (writeFileStates a p strokes).getLast?
          = some (FileState.stored (writePageAnnotations a p strokes))
      ∧ FileState.truncated ∈ (writeFileStates a p strokes).dropLast
      ∧ ∀ b : Archive, FileState.truncated ≠ FileState.stored b := by
  refine ⟨rfl, rfl, ?_, fun b h => by cases h⟩
  simp [writeFileStates]

/-- C2: converting a source PDF with `N ≥ 1` rendered pages and a prior
per-page mapping of non-empty overlays, then reading back the manifest, every
page image, and every page's annotations, reproduces the inputs exactly: the
served manifest's `pageCount` equals `N`, page `i + 1` reads back byte-for-byte
as the `i`-th rendered image, every prior overlay reads back structurally
equal (stroke order preserved, since the stored list is returned as-is), and
pages without a prior overlay read back `[]`. -/
theorem C2_roundtrip (original : Bytes) (pages : List Bytes)
    (prior : List (Nat × Overlay)) (baseName created : String)
    (hN : pages ≠ [])
    (hnd : (prior.map Prod.fst).Nodup)
    (hne : ∀ po ∈ prior, po.2 ≠ ([] : Overlay)) :
    convertOutcome original pages prior baseName created
        = ConvertOutcome.success
            (convertArchive original pages prior baseName created) pages.length
      ∧ (getManifest (convertArchive original pages prior baseName created)
            = ManifestResult.ok (convertManifest baseName created pages.length)
          ∧ (convertManifest baseName created pages.length).pageCount
            = pages.length)
      ∧ (∀ i (h : i < pages.length),
          getPage (convertArchive original pages prior baseName created) (1 + i)
            = some (pages.get ⟨i, h⟩))
      ∧ (∀ p o, (p, o) ∈ prior →
          readPageAnnotations
              (convertArchive original pages prior baseName created) p
            = AnnResult.ok o)
      ∧ (∀ p, p ∉ prior.map Prod.fst →
          readPageAnnotations
              (convertArchive original pages prior baseName created) p
            = AnnResult.ok []) := by
  refine ⟨rfl,
    ⟨convertArchive_manifest original pages prior baseName created, rfl⟩,
    ?_, ?_, ?_⟩
  · intro i h
    exact convertArchive_page original pages prior baseName created i h
  · intro p o hmem
    exact convertArchive_ann_mem original pages prior baseName created p o hnd hmem
  · intro p hp
    exact convertArchive_ann_notmem original pages prior baseName created p hp

/-- Witness for C2 on the demo inputs: 3 pages with a one-stroke prior overlay
on page 2 — the manifest reads back with `pageCount = 3`, page 2's image is
byte-identical to the second rendered image, page 2's annotations are exactly
the prior stroke, and page 1 reads back `[]`. -/
theorem C2_roundtrip_witness :
    getManifest demoArchive
        = ManifestResult.ok (convertManifest "demo" "2026-01-01" 3)
      ∧ getPage demoArchive 2 = some [1, 2, 3]
      ∧ readPageAnnotations demoArchive 2 = AnnResult.ok [demoStroke]
      ∧ readPageAnnotations demoArchive 1 = AnnResult.ok [] := by
  obtain ⟨-, ⟨hman, -⟩, hpage, hann, hempty⟩ :=
    C2_roundtrip demoOriginal demoPages [(2, [demoStroke])] "demo" "2026-01-01"
      (by decide) (by decide) (by decide)
  refine ⟨hman, ?_, hann 2 [demoStroke] (by decide), hempty 1 (by decide)⟩
  have h := hpage 1 (by decide)
  simpa using h

/-- Two near-simultaneous saves against the demo container: writer 1 saves a
stroke to page 1, writer 2 saves a stroke to page 3. -/
def demoWriters : TwoWriters :=
  { a0 := demoArchive
    p1 := 1
    p2 := 3
    s1 := [demoStroke2]
    s2 := [demoStroke] }

/-- C9 counterexample: the handler takes no per-path lock, so the interleaving
in which both writers snapshot the archive before either commits is possible;
under it both requests respond success, yet writer 1's page-1 annotation is
absent from the final container — its update is lost, overwritten by writer
2's rebuild of the original snapshot. -/
theorem C9_counterexample :
    Archive.find (runSchedule demoWriters
        [WPhase.read1, WPhase.read2, WPhase.commit1, WPhase.commit2]).file
        (EntryPath.annPath 1) = none
      ∧ Archive.find (runSchedule demoWriters
          [WPhase.read1, WPhase.read2, WPhase.commit1, WPhase.commit2]).file
          (EntryPath.annPath 3) = some (EntryData.json [demoStroke]) := by
  decide

/-- C9 amended: concurrent annotation writes to the same container are not
serialized by any lock; an overlapped interleaving loses the earlier update.
Only when the two writes do not overlap (the second reads the archive after
the first has committed) do both pages' annotations survive in the final
container. -/
theorem C9_serialized_writes_keep_both (w : TwoWriters)
    (hp : w.p1 ≠ w.p2) (h1 : w.s1 ≠ []) (h2 : w.s2 ≠ []) :
    Archive.find (runSchedule w
        [WPhase.read1, WPhase.commit1, WPhase.read2, WPhase.commit2]).file
        (EntryPath.annPath w.p1) = some (EntryData.json w.s1)
      ∧ Archive.find (runSchedule w
          [WPhase.read1, WPhase.commit1, WPhase.read2, WPhase.commit2]).file
          (EntryPath.annPath w.p2) = some (EntryData.json w.s2) := by
  have hrun : (runSchedule w
      [WPhase.read1, WPhase.commit1, WPhase.read2, WPhase.commit2]).file
      = writePageAnnotations (writePageAnnotations w.a0 w.p1 (some w.s1))
          w.p2 (some w.s2) := rfl
  have hne : EntryPath.annPath w.p1 ≠ EntryPath.annPath w.p2 := by
    intro hc; exact hp (by injection hc)
  constructor
  · rw [hrun, writePageAnnotations_find_other _ _ _ _ hne]
    exact writePageAnnotations_find_self w.a0 w.p1 w.s1 h1
  · rw [hrun]
    exact writePageAnnotations_find_self _ w.p2 w.s2 h2

/-- Witness for C9 amended at the demo writers: serialized, both page 1's and
page 3's strokes are present in the final container. -/
theorem C9_serialized_writes_keep_both_witness :
    Archive.find (runSchedule demoWriters
        [WPhase.read1, WPhase.commit1, WPhase.read2, WPhase.commit2]).file
        (EntryPath.annPath 1) = some (EntryData.json [demoStroke2])
      ∧ Archive.find (runSchedule demoWriters
          [WPhase.read1, WPhase.commit1, WPhase.read2, WPhase.commit2]).file
          (EntryPath.annPath 3) = some (EntryData.json [demoStroke]) :=
  C9_serialized_writes_keep_both demoWriters (by decide) (by decide) (by decide)

/-- A server state with two shelves and prior PDF annotations for two files. -/
def demoState : ServerState :=
  { shelves := [{ id := "shelf-1", name := "Jazz", files := ["a.pdf", "b.pdf"] },
                { id := "shelf-2", name := "Rock", files := ["c.pdf"] }]
    annStore := [("a.pdf", [(2, [demoStroke])]),
                 ("c.pdf", [(1, [demoStroke2])])] }

/-- C10: after a successful conversion of PDF `F`, the server-side store
`annotations.json` no longer holds an entry for `F` (its overlays are carried
by the annotation entries of the new container, which reads back each prior
overlay exactly); every shelf that listed `F` now lists the new `.regal` name
in `F`'s place (the handler overwrites the first occurrence of `F` in each
shelf's file list); and shelves not referencing `F` are unchanged. -/
theorem C10_convert_cleanup (s : ServerState) (pdfName regalName : String)
    (orig : Bytes) (pages : List Bytes) (prior : List (Nat × Overlay))
    (baseName created : String)
    (hprior : lookupStr s.annStore pdfName = some prior)
    (hnd : (prior.map Prod.fst).Nodup) :
    lookupStr (convertSideEffects s pdfName regalName).annStore pdfName = none
      ∧ (convertSideEffects s pdfName regalName).shelves
          = s.shelves.map
              (fun sh => { sh with
                files := replaceFirst pdfName regalName sh.files })
      ∧ (∀ files : List String, pdfName ∈ files →
            regalName ∈ replaceFirst pdfName regalName files)
      ∧ (∀ files : List String, pdfName ∉ files →
            replaceFirst pdfName regalName files = files)
      ∧ (∀ p o, (p, o) ∈ prior →
            readPageAnnotations
                (convertArchive orig pages prior baseName created) p
              = AnnResult.ok o) := by
  refine ⟨lookupStr_removeKey_self pdfName s.annStore, rfl,
    replaceFirst_mem pdfName regalName, replaceFirst_notmem pdfName regalName,
    ?_⟩
  intro p o hmem
  exact convertArchive_ann_mem orig pages prior baseName created p o hnd hmem

/-- Witness for C10 at the demo state: converting `a.pdf` into `a.regal`
removes `a.pdf` from the annotation store, shelf 1 (which listed `a.pdf`) now
lists `a.regal`, shelf 2 (which did not) keeps its files, and page 2 of the
new container reads back the prior stroke. -/
theorem C10_convert_cleanup_witness :
    lookupStr (convertSideEffects demoState "a.pdf" "a.regal").annStore "a.pdf"
        = none
      ∧ "a.regal" ∈ replaceFirst "a.pdf" "a.regal" ["a.pdf", "b.pdf"]
      ∧ replaceFirst "a.pdf" "a.regal" ["c.pdf"] = ["c.pdf"]
      ∧ readPageAnnotations
          (convertArchive demoOriginal demoPages [(2, [demoStroke])]
            "a" "2026-01-01") 2
          = AnnResult.ok [demoStroke] := by
  obtain ⟨h1, -, h3, h4, h5⟩ :=
    C10_convert_cleanup demoState "a.pdf" "a.regal" demoOriginal demoPages
      [(2, [demoStroke])] "a" "2026-01-01" (by decide) (by decide)
  exact ⟨h1, h3 _ (by decide), h4 _ (by decide), h5 2 [demoStroke] (by decide)⟩
